import Mathlib

/-!
# Flags widget: country matcher, directory lookup and selection controller

A shallow embedding of `autocomplete.js`, `api.js`, `country_picker.js`, the
name lookup of `map.js`, and the `fetchCountryData` and `updateUI` functions of
`ui.js`, `script.js` and `script-assets.js`.

* JavaScript strings are sequences of UTF-16 code units (`JSString`).
* `String.prototype.toLowerCase` is a host function that is not part of the
  repository; every definition that calls it takes it as the parameter
  `toLowerCase`, and the general theorems hold for every such function.
  `asciiLower` is the instance used for concrete evaluations; it agrees with
  the host function on ASCII text.
* Module-level variables (`countryList`, `currentFocus`, `countryDataCache`,
  `countryCoordinates`) become explicit arguments and state fields.
* The network is an explicit argument: what a request is answered with
  (`HttpExchange`); an `async` function returns how its promise settles.
* Functions that share a name across files live in the namespaces `FlagAPI`,
  `FlagUI`, `Script` and `ScriptAssets`.
* A property read `object[key]` goes through the prototype chain: `getProp`
  yields the stored value, or else the member of `Object.prototype` of that
  name.
-/

namespace Flags

/-! ## Strings -/

/-- A JavaScript string: its sequence of UTF-16 code units. -/
abbrev JSString := List Nat

/-- The code units of a literal made of Basic Multilingual Plane characters. -/
def str (s : String) : JSString := s.toList.map Char.toNat

/-- Lower-casing of the ASCII letters `A`..`Z`; other code units are kept. -/
def asciiLower (s : JSString) : JSString :=
  s.map (fun c => if 65 ≤ c ∧ c ≤ 90 then c + 32 else c)

/-- `s.startsWith(p)`: the code units of `p` are an initial segment of `s`. -/
def startsWith (s p : JSString) : Bool := p.isPrefixOf s

/-- `s.includes(p)`: `p` starts at some position of `s`. -/
def includes (s p : JSString) : Bool := s.tails.any (fun t => p.isPrefixOf t)

/-- The white space and line terminator code units removed by
`String.prototype.trim`. -/
def isTrimmable (c : Nat) : Bool :=
  c == 0x0009 || c == 0x000A || c == 0x000B || c == 0x000C || c == 0x000D ||
  c == 0x0020 || c == 0x00A0 || c == 0x1680 || (0x2000 ≤ c && c ≤ 0x200A) ||
  c == 0x2028 || c == 0x2029 || c == 0x202F || c == 0x205F || c == 0x3000 ||
  c == 0xFEFF

/-- `s.trim()`: white space removed from both ends. -/
def trim (s : JSString) : JSString :=
  ((s.dropWhile isTrimmable).reverse.dropWhile isTrimmable).reverse

/-! ## Country matcher (`autocomplete.js`) -/

/-- An entry of `countryList`: `{ name, emoji }`. -/
structure Country where
  name : JSString
  emoji : JSString
deriving DecidableEq

/-- `filterCountries(input)` of `autocomplete.js`, with the module variable
`countryList` as an argument. -/
def filterCountries (toLowerCase : JSString → JSString) (countryList : List Country)
    (input : JSString) : List Country :=
  if countryList.length = 0 then
    []
  else
    let inputLower := toLowerCase input
    let startsWithMatches := countryList.filter fun country =>
      startsWith (toLowerCase country.name) inputLower
    let containsMatches := countryList.filter fun country =>
      includes (toLowerCase country.name) inputLower &&
        !startsWith (toLowerCase country.name) inputLower
    (startsWithMatches ++ containsMatches).take 10

/-- The directory of end-to-end scenario 1, as the list built by `init`. -/
def franceList : List Country :=
  [⟨str "France", str "FR"⟩, ⟨str "Francophone Land", str "FL"⟩]

/-! ## Directory lookup (`api.js`) -/

/-- The parsed `countries.json` object, as the list of its own enumerable
properties in `Object.entries` order. Keys of one object are pairwise distinct.
What the object inherits from `Object.prototype` is added by `getProp`. -/
abbrev Directory (V : Type) := List (JSString × V)

/-- The names of the members that every plain object inherits from
`Object.prototype`. None of them is enumerable, so `Object.entries` and
`for ... in` do not visit them. -/
def objectPrototypeKeys : List JSString :=
  [str "constructor", str "__defineGetter__", str "__defineSetter__",
    str "hasOwnProperty", str "__lookupGetter__", str "__lookupSetter__",
    str "isPrototypeOf", str "propertyIsEnumerable", str "toString", str "valueOf",
    str "__proto__", str "toLocaleString"]

/-- What a property read `object[key]` yields when it is not `undefined`: a
value stored in the object itself, or the member of `Object.prototype` of that
name (a function, or the prototype object for `__proto__`). -/
inductive PropertyValue (V : Type) where
  | stored (value : V)
  | inherited (name : JSString)
deriving DecidableEq

/-- The JavaScript truth value of what a property read yields: that of the
stored value; inherited members are functions or objects, which are truthy. -/
def PropertyValue.isTruthy {V : Type} (truthy : V → Bool) : PropertyValue V → Bool
  | PropertyValue.stored value => truthy value
  | PropertyValue.inherited _ => true

/-- `countries[countryName]`: the value stored under the key; failing that, the
member of `Object.prototype` of that name; `none` (`undefined`) when there is
neither. -/
def getProp {V : Type} (countries : Directory V) (key : JSString) :
    Option (PropertyValue V) :=
  match countries.lookup key with
  | some value => some (PropertyValue.stored value)
  | none => if key ∈ objectPrototypeKeys then some (PropertyValue.inherited key) else none

/-- The body of `fetchCountryData(countryName)` of `api.js` once
`loadAllCountryData()` has resolved to `countries`. `truthy` is the
JavaScript truth value of a stored value (objects are truthy); `none` is the
final `return null`. Each `for ... of Object.entries` loop returns at the
first entry that passes its test. -/
def fetchCountryData {V : Type} (toLowerCase : JSString → JSString) (truthy : V → Bool)
    (countries : Directory V) (countryName : JSString) : Option (PropertyValue V) :=
  -- First try direct match
  if (getProp countries countryName).any (PropertyValue.isTruthy truthy) then
    getProp countries countryName
  else
    -- If not found, try case insensitive match
    let countryNameLower := toLowerCase countryName
    match countries.find? (fun e => toLowerCase e.1 == countryNameLower) with
    | some e => some (PropertyValue.stored e.2)
    | none =>
      -- If still not found, try partial match
      match countries.find? (fun e =>
          includes (toLowerCase e.1) countryNameLower ||
            includes countryNameLower (toLowerCase e.1)) with
      | some e => some (PropertyValue.stored e.2)
      | none => none

/-! ## Selection controller (`autocomplete.js`) -/

/-- The state the autocomplete listeners read and write: the text of
`#country-input`, the `dataset.value` of each `div` of `#country-suggestions`
in document order, and the module variable `currentFocus`. -/
structure AutocompleteState where
  inputValue : JSString
  items : List JSString
  currentFocus : Int
deriving DecidableEq

/-- The values of `e.key` that `handleKeyboardNavigation` distinguishes. -/
inductive Key where
  | ArrowDown
  | ArrowUp
  | Enter
  | Tab
  | other
deriving DecidableEq

/-- The events that have a listener in `setupAutocomplete` or
`displaySuggestions`. -/
inductive Event where
  /-- An `input` event on the text box; `text` is its new content. -/
  | input (text : JSString)
  /-- A `keydown` event on the text box. -/
  | keydown (key : Key)
  /-- A click on the suggestion at position `i`. -/
  | clickSuggestion (i : Nat)
  /-- A click whose target is neither the text box nor a suggestion. -/
  | clickElsewhere
  /-- A click on the text box itself. -/
  | clickInput

/-- `closeAllLists()`: empties the suggestion container and resets the focus. -/
def closeAllLists (s : AutocompleteState) : AutocompleteState :=
  { s with items := [], currentFocus := -1 }

/-- `displaySuggestions(matches, userInput, container)`: one `div` per match,
carrying the match name in `dataset.value`. -/
def displaySuggestions (s : AutocompleteState) (entries : List Country) :
    AutocompleteState :=
  if entries.length > 0 then
    { s with items := entries.map Country.name }
  else
    { s with items := [] }

/-- The listener of the `input` event. -/
def onInput (toLowerCase : JSString → JSString) (countryList : List Country)
    (s : AutocompleteState) (text : JSString) : AutocompleteState :=
  let value := trim text
  -- Close any already open suggestion lists
  let s1 := closeAllLists { s with inputValue := text }
  -- If empty input, don't show suggestions
  if value = [] then
    s1
  else
    displaySuggestions s1 (filterCountries toLowerCase countryList value)

/-- `addActive(items)`: brings `currentFocus` back within bounds (the class
and scroll updates do not touch the state modelled here). -/
def addActive (s : AutocompleteState) : AutocompleteState :=
  let s1 := if s.currentFocus ≥ (s.items.length : Int) then
      { s with currentFocus := 0 } else s
  if s1.currentFocus < 0 then
    { s1 with currentFocus := (s1.items.length : Int) - 1 } else s1

/-- `items[i]` for a JavaScript number `i`: `none` (`undefined`) when `i` is
negative or past the end. -/
def itemAt (items : List JSString) (i : Int) : Option JSString :=
  if 0 ≤ i then items[i.toNat]? else none

/-- The click listener of a suggestion `div` with `dataset.value = value`,
followed by the document click listener the event bubbles to. -/
def clickItem (s : AutocompleteState) (value : JSString) : AutocompleteState :=
  closeAllLists (closeAllLists { s with inputValue := value })

/-- `handleKeyboardNavigation(e, container)`. -/
def handleKeyboardNavigation (s : AutocompleteState) (key : Key) : AutocompleteState :=
  if s.items.length = 0 then
    s
  else
    match key with
    | Key.ArrowDown => addActive { s with currentFocus := s.currentFocus + 1 }
    | Key.ArrowUp => addActive { s with currentFocus := s.currentFocus - 1 }
    | Key.Enter =>
      if s.currentFocus > -1 then
        match itemAt s.items s.currentFocus with
        | some value => clickItem s value
        | none => s
      else s
    | Key.Tab =>
      if s.currentFocus > -1 then
        match itemAt s.items s.currentFocus with
        | some value => clickItem s value
        | none => s
      else
        match itemAt s.items 0 with
        | some value => clickItem s value
        | none => s
    | Key.other => s

/-- One event handled by the listeners installed by `setupAutocomplete`. -/
def step (toLowerCase : JSString → JSString) (countryList : List Country)
    (s : AutocompleteState) : Event → AutocompleteState
  | Event.input text => onInput toLowerCase countryList s text
  | Event.keydown key => handleKeyboardNavigation s key
  | Event.clickSuggestion i =>
    match s.items[i]? with
    | some value => clickItem s value
    | none => s
  | Event.clickElsewhere => closeAllLists s
  | Event.clickInput => s

/-- States the controller can be in: any state with `currentFocus = -1` (the
value the module is loaded with), and every state obtained from a reachable one
by handling an event. -/
inductive Reachable (toLowerCase : JSString → JSString) (countryList : List Country) :
    AutocompleteState → Prop where
  | init (s : AutocompleteState) (h : s.currentFocus = -1) :
      Reachable toLowerCase countryList s
  | next (s : AutocompleteState) (e : Event) (h : Reachable toLowerCase countryList s) :
      Reachable toLowerCase countryList (step toLowerCase countryList s e)

/-- The focus is `-1` or a valid index into the displayed suggestions. -/
def FocusValid (s : AutocompleteState) : Prop :=
  s.currentFocus = -1 ∨ (0 ≤ s.currentFocus ∧ s.currentFocus < (s.items.length : Int))

/-- ArrowDown pressed `k` times in a row. -/
def moveNextTimes (k : Nat) (s : AutocompleteState) : AutocompleteState :=
  (fun t => handleKeyboardNavigation t Key.ArrowDown)^[k] s

/-! ## Network outcomes and the directory cache (`api.js`) -/

/-- What one `fetch(url)` followed by `response.json()` produces: the request
is rejected (network error), or a response arrives with its `ok` flag and a
body that `response.json()` either parses (`some`) or rejects (`none`). -/
inductive HttpExchange (B : Type) where
  | networkError
  | response (ok : Bool) (json : Option B)

/-- How the promise of an `async` function settles: resolved with a value, or
rejected (the exception reaches the caller). -/
inductive Settled (α : Type) where
  | resolved (value : α)
  | rejected
deriving DecidableEq

/-- The module state of `api.js`: `countryDataCache` (`none` is `null`), and
the number of `fetch` calls `loadAllCountryData` has issued so far. -/
structure ApiState (V : Type) where
  countryDataCache : Option (Directory V)
  fetchCount : Nat
deriving DecidableEq

/-- `loadAllCountryData()` of `api.js`: the directory it resolves to and the
module state afterwards. `net` is what the network answers if a request is
made; the parsed body is the directory object, which is truthy. -/
def FlagAPI.loadAllCountryData {V : Type} (st : ApiState V)
    (net : HttpExchange (Directory V)) : Directory V × ApiState V :=
  match st.countryDataCache with
  | some cached => (cached, st)
  | none =>
    -- `try { const response = await fetch(...)`
    let st1 : ApiState V := { st with fetchCount := st.fetchCount + 1 }
    match net with
    | HttpExchange.networkError => ([], st1)
    | HttpExchange.response ok json =>
      if !ok then
        ([], st1)
      else
        match json with
        | none => ([], st1)
        | some data => (data, { st1 with countryDataCache := some data })

/-- `fetchCountryData(countryName)` of `api.js`, directory load included. The
whole body is inside `try { ... } catch { return null }`. -/
def FlagAPI.fetchCountryData {V : Type} (toLowerCase : JSString → JSString)
    (truthy : V → Bool) (st : ApiState V) (net : HttpExchange (Directory V))
    (countryName : JSString) : Settled (Option (PropertyValue V)) × ApiState V :=
  let loaded := FlagAPI.loadAllCountryData st net
  (Settled.resolved (Flags.fetchCountryData toLowerCase truthy loaded.1 countryName),
    loaded.2)

/-! ## Extended facts from the remote source (`script.js`, `script-assets.js`) -/

/-- A parsed response body of the remote source, with what `body[0]` and the
destructuring `[first] = body` can see of it. -/
inductive JsonBody (V : Type) where
  /-- A JSON array with its elements. -/
  | array (items : List V)
  /-- A JSON object; `zero` is the value of its property "0" when it has one. -/
  | object (zero : Option V)
  /-- A JSON string; `firstUnit` is its first code unit and `firstPoint` its
  first code point, each as a string value, `none` for the empty string. -/
  | string (firstUnit firstPoint : Option V)
  /-- A JSON number or boolean. -/
  | primitive
  /-- The JSON value `null`. -/
  | null

/-- `fetchCountryData(countryName)` of `script.js`: everything is inside
`try { ... } catch (error) { return null; }`. `data[0]` is the first element
of an array, the property "0" of an object, the first code unit of a string,
`undefined` on a number or boolean, and a `TypeError` (caught) on `null`.
`net` answers the request for a name. -/
def Script.fetchCountryData {V : Type} (net : JSString → HttpExchange (JsonBody V))
    (countryName : JSString) : Settled (Option V) :=
  match net countryName with
  | HttpExchange.networkError => Settled.resolved none
  | HttpExchange.response ok json =>
    if !ok then
      Settled.resolved none
    else
      match json with
      | none => Settled.resolved none
      | some (JsonBody.array items) => Settled.resolved items.head?
      | some (JsonBody.object zero) => Settled.resolved zero
      | some (JsonBody.string firstUnit _) => Settled.resolved firstUnit
      | some JsonBody.primitive => Settled.resolved none
      | some JsonBody.null => Settled.resolved none

/-- `fetchCountryData(name)` of `script-assets.js`: no `try`; an awaited
rejection and the `TypeError` of destructuring a value that is not iterable
(an object, a number, a boolean, `null`) reach the caller. Destructuring an
array gives its first element, and a string its first code point. -/
def ScriptAssets.fetchCountryData {V : Type} (net : JSString → HttpExchange (JsonBody V))
    (name : JSString) : Settled (Option V) :=
  match net name with
  | HttpExchange.networkError => Settled.rejected
  | HttpExchange.response ok json =>
    if !ok then
      Settled.resolved none
    else
      match json with
      | none => Settled.rejected
      | some (JsonBody.array items) => Settled.resolved items.head?
      | some (JsonBody.object _) => Settled.rejected
      | some (JsonBody.string _ firstPoint) => Settled.resolved firstPoint
      | some JsonBody.primitive => Settled.rejected
      | some JsonBody.null => Settled.rejected

/-! ## Picker (`country_picker.js`) -/

/-- An entry of the picker list: `{ name, emoji, region }`. -/
structure PickerCountry where
  name : JSString
  emoji : JSString
  region : JSString
deriving DecidableEq

/-- `renderList(filter)` of `country_picker.js`: the records rendered, one
`picker-item` each, in order. -/
def renderList (toLowerCase : JSString → JSString) (countryList : List PickerCountry)
    (filter : JSString) : List PickerCountry :=
  let query := toLowerCase (trim filter)
  if query ≠ [] then
    countryList.filter fun c =>
      includes (toLowerCase c.name) query || includes (toLowerCase c.region) query
  else
    countryList

/-! ## Coordinates lookup (`map.js`) -/

/-- `getLocalCountryCoordinates(countryName)` of `map.js`, with the module
variable `countryCoordinates` (`none` while not loaded) as an argument. The
`for ... in` loops visit the keys in the order of `Object.entries` and return
`countryCoordinates[country]` at the first key that passes. -/
def getLocalCountryCoordinates {V : Type} (toLowerCase : JSString → JSString)
    (truthy : V → Bool) (countryCoordinates : Option (Directory V))
    (countryName : JSString) : Option (PropertyValue V) :=
  match countryCoordinates with
  | none => none
  | some coordinates =>
    if countryName = [] then
      none
    else if (getProp coordinates countryName).any (PropertyValue.isTruthy truthy) then
      -- Try exact match
      getProp coordinates countryName
    else
      -- Try case-insensitive match
      let lowercaseInput := toLowerCase countryName
      match coordinates.find? (fun e => toLowerCase e.1 == lowercaseInput) with
      | some e => getProp coordinates e.1
      | none =>
        -- Try partial match
        match coordinates.find? (fun e =>
            includes (toLowerCase e.1) lowercaseInput ||
              includes lowercaseInput (toLowerCase e.1)) with
        | some e => getProp coordinates e.1
        | none => none

/-! ## Rendering a snapshot (`ui.js`, `script.js`, `script-assets.js`) -/

/-- `s.replace(pattern, replacement)` for a string pattern and a replacement
without `$`: the first occurrence of `pattern` is replaced, and `s` is
returned as it is when there is none. -/
def replaceFirst (pattern replacement : JSString) : JSString → JSString
  | [] => if pattern = [] then replacement else []
  | c :: rest =>
    if pattern.isPrefixOf (c :: rest) then
      replacement ++ (c :: rest).drop pattern.length
    else
      c :: replaceFirst pattern replacement rest

/-- `parts.join(", ")`. -/
def joinComma (parts : List JSString) : JSString :=
  List.intercalate (str ", ") parts

/-- The flag snapshot read from `flag.json`; `info` may be missing. -/
structure FlagSnapshot where
  country : JSString
  emoji : JSString
  timestamp : JSString
  info : Option JSString
deriving DecidableEq

/-- A value of the `currencies` mapping: `{ name, symbol }`. -/
structure Currency where
  name : JSString
  symbol : Option JSString
deriving DecidableEq

/-- The extended facts of a country; a missing field is `none`. `languages`
and `currencies` hold the `Object.values` of the mappings. -/
structure ExtendedFacts where
  capital : Option (List JSString)
  population : Option Int
  region : Option JSString
  subregion : Option JSString
  languages : Option (List JSString)
  currencies : Option (List Currency)
  timezones : Option (List JSString)
deriving DecidableEq

/-- The `textContent` of the elements `updateUI` writes, and the `display`
style of the two containers. All the elements are taken to be present in the
page. -/
structure Page where
  country : JSString
  emoji : JSString
  timestamp : JSString
  capital : JSString
  population : JSString
  region : JSString
  languages : JSString
  currency : JSString
  timezones : JSString
  loadingDisplay : JSString
  contentDisplay : JSString
deriving DecidableEq

/-- The template literal of the currency list: `name (symbol || "")`. -/
def currencyLabel (curr : Currency) : JSString :=
  curr.name ++ str " (" ++
    (match curr.symbol with
      | some sym => sym
      | none => []) ++ str ")"

/-- `updateUI(localData, extendedData)` of `ui.js`. `formatNumber` is
`num.toLocaleString()`. -/
def FlagUI.updateUI (formatNumber : Int → JSString) (page : Page)
    (localData : FlagSnapshot) (extendedData : Option ExtendedFacts) : Page :=
  -- Always available from local data
  let p1 : Page := { page with
    country := localData.country
    emoji := localData.emoji
    timestamp := str "Updated: " ++ localData.timestamp }
  -- Basic capital from local data
  let replaced : JSString := match localData.info with
    | some info => replaceFirst (str "Capital: ") [] info
    | none => []
  let basicCapital : JSString := if replaced ≠ [] then replaced else str "-"
  let p2 : Page := { p1 with capital := basicCapital }
  -- If we have extended data, use it to update UI
  let p3 : Page := match extendedData with
    | none => p2
    | some ext =>
      let q1 : Page := match ext.capital with
        | some cap => if cap.length > 0 then { p2 with capital := joinComma cap } else p2
        | none => p2
      let q2 : Page := match ext.population with
        | some pop => if pop ≠ 0 then { q1 with population := formatNumber pop } else q1
        | none => q1
      let q3 : Page := match ext.region with
        | some reg =>
          if reg ≠ [] then
            { q2 with region :=
                match ext.subregion with
                | some sub => if sub ≠ [] then reg ++ str " (" ++ sub ++ str ")" else reg
                | none => reg }
          else q2
        | none => q2
      let q4 : Page := match ext.languages with
        | some langs => { q3 with languages := joinComma langs }
        | none => q3
      let q5 : Page := match ext.currencies with
        | some currs => { q4 with currency := joinComma (currs.map currencyLabel) }
        | none => q4
      match ext.timezones with
      | some zones => { q5 with timezones := joinComma zones }
      | none => q5
  -- Show content, hide loading spinner
  { p3 with loadingDisplay := str "none", contentDisplay := str "block" }

/-- `updateUI(localData, extendedData)` of `script.js`: the same steps on the
elements captured at load time; `formatNumber` is its comma grouping. -/
def Script.updateUI (formatNumber : Int → JSString) (page : Page)
    (localData : FlagSnapshot) (extendedData : Option ExtendedFacts) : Page :=
  let p1 : Page := { page with
    country := localData.country
    emoji := localData.emoji
    timestamp := str "Updated: " ++ localData.timestamp }
  let replaced : JSString := match localData.info with
    | some info => replaceFirst (str "Capital: ") [] info
    | none => []
  let basicCapital : JSString := if replaced ≠ [] then replaced else str "-"
  let p2 : Page := { p1 with capital := basicCapital }
  let p3 : Page := match extendedData with
    | none => p2
    | some ext =>
      let q1 : Page := match ext.capital with
        | some cap => if cap.length > 0 then { p2 with capital := joinComma cap } else p2
        | none => p2
      let q2 : Page := match ext.population with
        | some pop => if pop ≠ 0 then { q1 with population := formatNumber pop } else q1
        | none => q1
      let q3 : Page := match ext.region with
        | some reg =>
          if reg ≠ [] then
            { q2 with region :=
                match ext.subregion with
                | some sub => if sub ≠ [] then reg ++ str " (" ++ sub ++ str ")" else reg
                | none => reg }
          else q2
        | none => q2
      let q4 : Page := match ext.languages with
        | some langs => { q3 with languages := joinComma langs }
        | none => q3
      let q5 : Page := match ext.currencies with
        | some currs => { q4 with currency := joinComma (currs.map currencyLabel) }
        | none => q4
      match ext.timezones with
      | some zones => { q5 with timezones := joinComma zones }
      | none => q5
  { p3 with loadingDisplay := str "none", contentDisplay := str "block" }

/-- `updateUI(localData, extData)` of `script-assets.js`: the capital falls
back to "-" on the truth value of `localData.info` itself, before the
replacement; an extended capital array is joined whatever its length. -/
def ScriptAssets.updateUI (formatNumber : Int → JSString) (page : Page)
    (localData : FlagSnapshot) (extData : Option ExtendedFacts) : Page :=
  let p1 : Page := { page with
    country := localData.country
    emoji := localData.emoji
    timestamp := str "Updated: " ++ localData.timestamp }
  -- Basic capital info
  let p2 : Page := { p1 with capital :=
    match localData.info with
    | some info => if info ≠ [] then replaceFirst (str "Capital: ") [] info else str "-"
    | none => str "-" }
  let p3 : Page := match extData with
    | none => p2
    | some ext =>
      let q1 : Page := match ext.capital with
        | some cap => { p2 with capital := joinComma cap }
        | none => p2
      let q2 : Page := match ext.population with
        | some pop => if pop ≠ 0 then { q1 with population := formatNumber pop } else q1
        | none => q1
      let q3 : Page := match ext.region with
        | some reg =>
          if reg ≠ [] then
            { q2 with region := reg ++
                (match ext.subregion with
                  | some sub => if sub ≠ [] then str " (" ++ sub ++ str ")" else []
                  | none => []) }
          else q2
        | none => q2
      let q4 : Page := match ext.languages with
        | some langs => { q3 with languages := joinComma langs }
        | none => q3
      let q5 : Page := match ext.currencies with
        | some currs => { q4 with currency := joinComma (currs.map currencyLabel) }
        | none => q4
      match ext.timezones with
      | some zones => { q5 with timezones := joinComma zones }
      | none => q5
  { p3 with loadingDisplay := str "none", contentDisplay := str "block" }

/-- An example page state, used in concrete evaluations. -/
def blankPage : Page :=
  ⟨str "-", str "-", str "-", str "-", str "-", str "-", str "-", str "-", str "-",
    str "flex", str "none"⟩

/-- A snapshot whose `info` holds the label and nothing after it. -/
def labelOnlySnapshot : FlagSnapshot :=
  ⟨str "Chad", str "TD", str "2024-01-01", some (str "Capital: ")⟩

/-! ## Auxiliary notions used in statements and proofs -/
/-- The request fails: it is rejected, the status is not OK, or the body does
not parse. -/
def HttpExchange.failed {B : Type} : HttpExchange B → Bool
  | HttpExchange.networkError => true
  | HttpExchange.response ok json => !ok || json.isNone

/-- Successive calls of `loadAllCountryData()`, one per element of `nets`
(what the network would answer to that call): the directories returned, in
order, and the final module state. -/
def loadAllCountryDataSeq {V : Type} (st : ApiState V) :
    List (HttpExchange (Directory V)) → List (Directory V) × ApiState V
  | [] => ([], st)
  | net :: nets =>
    let first := FlagAPI.loadAllCountryData st net
    let later := loadAllCountryDataSeq first.2 nets
    (first.1 :: later.1, later.2)



/-- The positions, in increasing order, of the elements of `L` that pass `p`. -/
def positionsOf {α : Type} (p : α → Bool) (L : List α) : List Nat :=
  (L.enum.filter (fun x => p x.2)).map Prod.fst

/-! ## Basic facts about the string primitives -/

theorem startsWith_iff (s p : JSString) : startsWith s p = true ↔ p <+: s := by
  unfold startsWith
  exact List.isPrefixOf_iff_prefix

theorem includes_iff (s p : JSString) : includes s p = true ↔ p <:+: s := by
  unfold includes
  rw [List.any_eq_true, List.infix_iff_prefix_suffix]
  constructor
  · rintro ⟨t, ht, hp⟩
    exact ⟨t, List.isPrefixOf_iff_prefix.mp hp, (List.mem_tails t s).mp ht⟩
  · rintro ⟨t, hp, ht⟩
    exact ⟨t, (List.mem_tails t s).mpr ht, List.isPrefixOf_iff_prefix.mpr hp⟩

theorem startsWith_imp_includes (s p : JSString) (h : startsWith s p = true) :
    includes s p = true :=
  (includes_iff s p).mpr ((startsWith_iff s p).mp h).isInfix

/-- The body of `filterCountries` without the empty-list guard: on the empty
list both filters are empty, so the guard changes nothing. -/
theorem filterCountries_unfold (lower : JSString → JSString) (R : List Country)
    (q : JSString) :
    filterCountries lower R q =
      (R.filter (fun c => startsWith (lower c.name) (lower q)) ++
        R.filter (fun c => includes (lower c.name) (lower q) &&
          !startsWith (lower c.name) (lower q))).take 10 := by
  unfold filterCountries
  cases R with
  | nil => simp
  | cons a R => simp

/-! ## C1 -/

/-- C1: for every country list and query, `filterCountries` returns the first
10 elements of: the records whose lower-cased name has the lower-cased query as
a prefix, in list order, followed by the records whose lower-cased name has it
as an infix but not as a prefix, in list order; and on the list
[France, Francophone Land] the query "fra" gives both records in that order. -/
theorem filterCountries_two_tier :
    (∀ (lower : JSString → JSString) (R : List Country) (q : JSString),
      filterCountries lower R q =
        (R.filter (fun c => decide (lower q <+: lower c.name)) ++
          R.filter (fun c => decide (lower q <:+: lower c.name ∧
            ¬ lower q <+: lower c.name))).take 10) ∧
    filterCountries asciiLower franceList (str "fra") = franceList := by
  refine ⟨?_, by decide⟩
  intro lower R q
  rw [filterCountries_unfold]
  congr 2
  · apply List.filter_congr
    intro c _
    rw [Bool.eq_iff_iff]
    simp [startsWith_iff]
  · apply List.filter_congr
    intro c _
    rw [Bool.eq_iff_iff]
    simp only [Bool.and_eq_true, Bool.not_eq_true', decide_eq_true_eq, includes_iff,
      ← startsWith_iff, Bool.not_eq_true]

/-! ## C2 -/

/-- C2: for every country list and query, the result of `filterCountries` has
at most 10 elements and at most as many elements as there are records whose
lower-cased name contains the lower-cased query; and it is the empty list when
no record name contains the query. -/
theorem filterCountries_length_bounds (lower : JSString → JSString) (R : List Country)
    (q : JSString) :
    (filterCountries lower R q).length ≤ 10 ∧
    (filterCountries lower R q).length ≤
      (R.filter (fun c => decide (lower q <:+: lower c.name))).length ∧
    ((∀ c ∈ R, ¬ lower q <:+: lower c.name) → filterCountries lower R q = []) := by
  have hlen : (R.filter (fun c => startsWith (lower c.name) (lower q)) ++
      R.filter (fun c => includes (lower c.name) (lower q) &&
        !startsWith (lower c.name) (lower q))).length =
      (R.filter (fun c => decide (lower q <:+: lower c.name))).length := by
    induction R with
    | nil => rfl
    | cons a R ih =>
      simp only [List.length_append] at ih
      by_cases hs : startsWith (lower a.name) (lower q) = true
      · have hi := (includes_iff _ _).mp (startsWith_imp_includes _ _ hs)
        simp [List.filter_cons, hs, hi, ← ih]
      · by_cases hc : includes (lower a.name) (lower q) = true
        · have hi := (includes_iff _ _).mp hc
          simp [List.filter_cons, hs, hc, hi, ← ih]
          omega
        · have hi : ¬ lower q <:+: lower a.name := fun h => hc ((includes_iff _ _).mpr h)
          simp [List.filter_cons, hs, hc, hi, ← ih]
  refine ⟨?_, ?_, ?_⟩
  · rw [filterCountries_unfold, List.length_take]
    exact Nat.min_le_left _ _
  · rw [filterCountries_unfold, List.length_take, hlen]
    exact Nat.min_le_right _ _
  · intro hnone
    have hz : (R.filter (fun c => decide (lower q <:+: lower c.name))).length = 0 := by
      rw [List.length_eq_zero, List.filter_eq_nil_iff]
      intro c hc
      simpa using hnone c hc
    rw [filterCountries_unfold]
    apply List.eq_nil_of_length_eq_zero
    rw [List.length_take, hlen, hz]
    rfl

/-! ## Filtering and list positions -/

theorem filter_map_some_eq_positions {α : Type} (p : α → Bool) (L : List α) :
    (L.filter p).map some = (positionsOf p L).map (fun i => L[i]?) := by
  unfold positionsOf
  have h1 : L.filter p = (L.enum.filter (fun x => p x.2)).map Prod.snd := by
    conv_lhs => rw [← List.enum_map_snd L]
    rw [List.filter_map]
    rfl
  rw [h1, List.map_map, List.map_map]
  apply List.map_congr_left
  intro x hx
  have hmem : (x.1, x.2) ∈ L.enum := (List.mem_filter.mp hx).1
  simp only [Function.comp]
  exact (List.mk_mem_enum_iff_getElem?.mp hmem).symm

theorem positionsOf_map {α β : Type} (f : α → β) (p : β → Bool) (L : List α) :
    positionsOf p (L.map f) = positionsOf (fun a => p (f a)) L := by
  unfold positionsOf
  rw [List.enum_map, List.filter_map, List.map_map]
  rfl

theorem positionsOf_sublist_range {α : Type} (p : α → Bool) (L : List α) :
    (positionsOf p L).Sublist (List.range L.length) := by
  unfold positionsOf
  rw [← List.enum_map_fst]
  exact (List.filter_sublist _).map _

theorem mem_positionsOf {α : Type} (p : α → Bool) (L : List α) (i : Nat) :
    i ∈ positionsOf p L ↔ ∃ a, L[i]? = some a ∧ p a = true := by
  unfold positionsOf
  simp only [List.mem_map, List.mem_filter]
  constructor
  · rintro ⟨⟨j, a⟩, ⟨hm, hp⟩, rfl⟩
    exact ⟨a, List.mk_mem_enum_iff_getElem?.mp hm, hp⟩
  · rintro ⟨a, ha, hp⟩
    exact ⟨(i, a), ⟨List.mk_mem_enum_iff_getElem?.mpr ha, hp⟩, rfl⟩

theorem positionsOf_append_nodup {α : Type} (p r : α → Bool) (L : List α)
    (hdis : ∀ a, p a = true → r a = false) :
    (positionsOf p L ++ positionsOf r L).Nodup := by
  rw [List.nodup_append]
  refine ⟨(List.nodup_range _).sublist (positionsOf_sublist_range p L),
    (List.nodup_range _).sublist (positionsOf_sublist_range r L), ?_⟩
  intro i hp hr
  obtain ⟨a, ha, hpa⟩ := (mem_positionsOf p L i).mp hp
  obtain ⟨b, hb, hrb⟩ := (mem_positionsOf r L i).mp hr
  rw [ha] at hb
  cases hb
  rw [hdis a hpa] at hrb
  exact Bool.false_ne_true hrb

theorem getElem_append_tiers {α : Type} (P : α → Prop) (A B : List α)
    (hA : ∀ x ∈ A, P x) (hB : ∀ x ∈ B, ¬ P x) (i j : Nat)
    (hi : i < (A ++ B).length) (hj : j < (A ++ B).length)
    (hPj : P (A ++ B)[j]) (hPi : ¬ P (A ++ B)[i]) : j < i := by
  by_contra hlt
  have hij : i ≤ j := Nat.le_of_not_lt hlt
  by_cases hiA : i < A.length
  · rw [List.getElem_append_left hiA] at hPi
    exact hPi (hA _ (List.getElem_mem _))
  · have hjA : A.length ≤ j := by omega
    rw [List.getElem_append_right hjA] at hPj
    exact hB _ (List.getElem_mem _) hPj

/-! ## C3 -/

/-- C3: in the result of `filterCountries`, every record whose lower-cased name
starts with the lower-cased query stands before every record whose name does
not start with it; the result is the list of records at pairwise distinct
positions of the country list, so no position is returned twice; and when the
names of the country list are pairwise distinct, so are the names returned. -/
theorem filterCountries_tier_order_nodup (lower : JSString → JSString) (R : List Country)
    (q : JSString) :
    (∀ (i j : Nat) (hi : i < (filterCountries lower R q).length)
        (hj : j < (filterCountries lower R q).length),
        lower q <+: lower ((filterCountries lower R q)[j]).name →
        ¬ lower q <+: lower ((filterCountries lower R q)[i]).name → j < i) ∧
    (∃ idx : List Nat, idx.Nodup ∧
        (filterCountries lower R q).map some = idx.map (fun i => R[i]?)) ∧
    ((R.map Country.name).Nodup →
        ((filterCountries lower R q).map Country.name).Nodup) := by
  refine ⟨?_, ?_, ?_⟩
  · obtain ⟨A, B, hres, hA, hB⟩ : ∃ A B : List Country,
        filterCountries lower R q = A ++ B ∧
        (∀ x ∈ A, lower q <+: lower x.name) ∧ (∀ x ∈ B, ¬ lower q <+: lower x.name) := by
      refine ⟨(R.filter (fun c => startsWith (lower c.name) (lower q))).take 10,
        (R.filter (fun c => includes (lower c.name) (lower q) &&
          !startsWith (lower c.name) (lower q))).take
          (10 - (R.filter (fun c => startsWith (lower c.name) (lower q))).length),
        ?_, ?_, ?_⟩
      · rw [filterCountries_unfold, List.take_append_eq_append_take]
      · intro x hx
        have hx2 := (List.mem_filter.mp (List.mem_of_mem_take hx)).2
        exact (startsWith_iff _ _).mp hx2
      · intro x hx hpre
        have hx2 := (List.mem_filter.mp (List.mem_of_mem_take hx)).2
        rw [(startsWith_iff _ _).mpr hpre] at hx2
        simp at hx2
    generalize filterCountries lower R q = res at hres
    subst hres
    intro i j hi hj hPj hPi
    exact getElem_append_tiers (fun c => lower q <+: lower c.name) A B hA hB i j hi hj hPj hPi
  · refine ⟨(positionsOf (fun c => startsWith (lower c.name) (lower q)) R ++
        positionsOf (fun c => includes (lower c.name) (lower q) &&
          !startsWith (lower c.name) (lower q)) R).take 10, ?_, ?_⟩
    · apply List.Nodup.sublist (List.take_sublist _ _)
      apply positionsOf_append_nodup
      intro a ha
      simp only at ha
      simp [ha]
    · rw [filterCountries_unfold, List.map_take, List.map_take, List.map_append,
        List.map_append, filter_map_some_eq_positions, filter_map_some_eq_positions]
  · intro hnd
    rw [filterCountries_unfold]
    apply List.Nodup.sublist ((List.take_sublist _ _).map _)
    rw [List.map_append, List.nodup_append]
    refine ⟨hnd.sublist ((List.filter_sublist _).map _),
      hnd.sublist ((List.filter_sublist _).map _), ?_⟩
    intro x hxA hxB
    obtain ⟨a, ha, rfl⟩ := List.mem_map.mp hxA
    obtain ⟨b, hb, hbn⟩ := List.mem_map.mp hxB
    have hsa := (List.mem_filter.mp ha).2
    have hsb := (List.mem_filter.mp hb).2
    rw [hbn] at hsb
    simp only at hsa
    rw [hsa] at hsb
    simp at hsb

/-! ## C4 -/

theorem trim_eq_nil_of_blank (text : JSString) (hblank : ∀ c ∈ text, isTrimmable c = true) :
    trim text = [] := by
  unfold trim
  have h : text.dropWhile isTrimmable = [] := List.dropWhile_eq_nil_iff.mpr hblank
  rw [h]
  rfl

/-- C4 (as stated, refuted): on the list [France, Francophone Land] the empty
query makes `filterCountries` return both records, not the empty list, because
every name starts with the empty string. -/
theorem filterCountries_empty_query_nonempty :
    filterCountries asciiLower franceList (str "") = franceList ∧
    filterCountries asciiLower franceList (str "") ≠ [] := by
  decide

/-- C4 (amended): for every country list, (a) an `input` event whose text is
empty or consists of white space only leaves no suggestion displayed and the
focus at -1; (b) an `input` event whose trimmed text is not empty displays the
names of `filterCountries` applied to that trimmed text, so the listener never
passes the empty string to `filterCountries`; and (c) `filterCountries`
itself, applied to the empty string, returns the first 10 records of the list
whenever lower-casing maps the empty string to itself. -/
theorem onInput_blank_shows_nothing (lower : JSString → JSString) (R : List Country) :
    (∀ (s : AutocompleteState) (text : JSString),
      (∀ c ∈ text, isTrimmable c = true) →
      (onInput lower R s text).items = [] ∧ (onInput lower R s text).currentFocus = -1) ∧
    (∀ (s : AutocompleteState) (text : JSString), trim text ≠ [] →
      (onInput lower R s text).items =
        (filterCountries lower R (trim text)).map Country.name) ∧
    (lower [] = [] → filterCountries lower R [] = R.take 10) := by
  refine ⟨?_, ?_, ?_⟩
  · intro s text hblank
    unfold onInput
    simp only [trim_eq_nil_of_blank text hblank, if_true]
    exact ⟨rfl, rfl⟩
  · intro s text hne
    unfold onInput displaySuggestions
    dsimp only
    rw [if_neg hne]
    split_ifs with hlen
    · rfl
    · have hnil : filterCountries lower R (trim text) = [] :=
        List.eq_nil_of_length_eq_zero (by omega)
      rw [hnil]
      rfl
  · intro hlow
    rw [filterCountries_unfold, hlow]
    have h1 : R.filter (fun c => startsWith (lower c.name) []) = R := by
      rw [List.filter_eq_self]
      intro c _
      exact (startsWith_iff _ _).mpr List.nil_prefix
    have h2 : R.filter (fun c => includes (lower c.name) [] &&
        !startsWith (lower c.name) []) = [] := by
      rw [List.filter_eq_nil_iff]
      intro c _
      have hs : startsWith (lower c.name) [] = true :=
        (startsWith_iff _ _).mpr List.nil_prefix
      simp [hs]
    rw [h1, h2, List.append_nil]

/-- Witness for C4 (amended): over the France directory, two spaces typed,
" fra " typed, and `filterCountries` applied to the empty string. -/
theorem onInput_blank_shows_nothing_witness :
    (∀ c ∈ str "  ", isTrimmable c = true) ∧
    ((onInput asciiLower franceList ⟨[], [str "France"], 0⟩ (str "  ")).items = [] ∧
      (onInput asciiLower franceList ⟨[], [str "France"], 0⟩ (str "  ")).currentFocus = -1) ∧
    (onInput asciiLower franceList ⟨[], [], -1⟩ (str " fra ")).items =
      (filterCountries asciiLower franceList (trim (str " fra "))).map Country.name ∧
    filterCountries asciiLower franceList [] = franceList.take 10 :=
  ⟨by decide,
    (onInput_blank_shows_nothing asciiLower franceList).1 ⟨[], [str "France"], 0⟩
      (str "  ") (by decide),
    (onInput_blank_shows_nothing asciiLower franceList).2.1 ⟨[], [], -1⟩ (str " fra ")
      (by decide),
    (onInput_blank_shows_nothing asciiLower franceList).2.2 rfl⟩

/-! ## C5 -/

theorem filterCountries_positions (lower : JSString → JSString) (R : List Country)
    (q : JSString) :
    (filterCountries lower R q).map some =
      ((positionsOf (fun n => startsWith n (lower q)) (R.map (fun c => lower c.name)) ++
        positionsOf (fun n => includes n (lower q) && !startsWith n (lower q))
          (R.map (fun c => lower c.name))).take 10).map (fun i => R[i]?) := by
  rw [filterCountries_unfold, List.map_take, List.map_take, List.map_append,
    List.map_append, filter_map_some_eq_positions, filter_map_some_eq_positions,
    positionsOf_map, positionsOf_map]

/-- C5: for every lower-casing function, two queries with the same lower-case
form give the same result on every country list; and two country lists whose
names agree position by position after lower-casing give results taken from the
same list positions in the same order. -/
theorem filterCountries_case_insensitive (lower : JSString → JSString) :
    (∀ (R : List Country) (q1 q2 : JSString), lower q1 = lower q2 →
      filterCountries lower R q1 = filterCountries lower R q2) ∧
    (∀ (R1 R2 : List Country) (q : JSString),
      R1.map (fun c => lower c.name) = R2.map (fun c => lower c.name) →
      ∃ idx : List Nat,
        (filterCountries lower R1 q).map some = idx.map (fun i => R1[i]?) ∧
        (filterCountries lower R2 q).map some = idx.map (fun i => R2[i]?)) := by
  constructor
  · intro R q1 q2 h
    rw [filterCountries_unfold, filterCountries_unfold, h]
  · intro R1 R2 q h
    refine ⟨_, filterCountries_positions lower R1 q, ?_⟩
    rw [h]
    exact filterCountries_positions lower R2 q

/-- Witness for C5: the queries "FRA" and "fra", and the France directory with
its names re-cased. -/
theorem filterCountries_case_insensitive_witness :
    asciiLower (str "FRA") = asciiLower (str "fra") ∧
    filterCountries asciiLower franceList (str "FRA") =
      filterCountries asciiLower franceList (str "fra") ∧
    ∃ idx : List Nat,
      (filterCountries asciiLower franceList (str "ra")).map some =
        idx.map (fun i => franceList[i]?) ∧
      (filterCountries asciiLower [⟨str "FRANCE", []⟩, ⟨str "francophone LAND", []⟩]
        (str "ra")).map some =
        idx.map (fun i => [(⟨str "FRANCE", []⟩ : Country), ⟨str "francophone LAND", []⟩][i]?) :=
  ⟨by decide,
    (filterCountries_case_insensitive asciiLower).1 franceList (str "FRA") (str "fra")
      (by decide),
    (filterCountries_case_insensitive asciiLower).2 franceList
      [⟨str "FRANCE", []⟩, ⟨str "francophone LAND", []⟩] (str "ra") (by decide)⟩

/-! ## C6 -/

theorem lookup_eq_some_of_mem {V : Type} (D : Directory V) (n : JSString) (v : V)
    (hkeys : (D.map Prod.fst).Nodup) (hmem : (n, v) ∈ D) : D.lookup n = some v := by
  induction D with
  | nil => simp at hmem
  | cons e D ih =>
    obtain ⟨k, w⟩ := e
    rw [List.map_cons, List.nodup_cons] at hkeys
    rcases List.mem_cons.mp hmem with heq | htail
    · cases heq
      simp [List.lookup_cons]
    · have hne : n ≠ k := by
        rintro rfl
        exact hkeys.1 (List.mem_map.mpr ⟨(n, v), htail, rfl⟩)
      rw [List.lookup_cons, beq_false_of_ne hne]
      exact ih hkeys.2 htail

theorem mem_of_lookup_eq_some {V : Type} (D : Directory V) (n : JSString) (v : V)
    (h : D.lookup n = some v) : (n, v) ∈ D := by
  induction D with
  | nil => simp at h
  | cons e D ih =>
    obtain ⟨k, w⟩ := e
    rw [List.lookup_cons] at h
    by_cases hk : n = k
    · subst hk
      simp at h
      subst h
      exact List.mem_cons_self _ _
    · rw [beq_false_of_ne hk] at h
      exact List.mem_cons_of_mem _ (ih h)

theorem lookup_eq_none_of_not_mem {V : Type} (D : Directory V) (n : JSString)
    (h : ∀ v, (n, v) ∉ D) : D.lookup n = none := by
  cases hl : D.lookup n with
  | none => rfl
  | some v => exact absurd (mem_of_lookup_eq_some D n v hl) (h v)

theorem getProp_of_lookup_some {V : Type} (D : Directory V) (n : JSString) (v : V)
    (h : D.lookup n = some v) : getProp D n = some (PropertyValue.stored v) := by
  unfold getProp
  rw [h]

theorem getProp_of_not_own {V : Type} (D : Directory V) (n : JSString)
    (h : D.lookup n = none) :
    getProp D n =
      if n ∈ objectPrototypeKeys then some (PropertyValue.inherited n) else none := by
  unfold getProp
  rw [h]

/-- The lookup once the direct read has failed: the two loops in order. -/
theorem fetchCountryData_after_direct {V : Type} (lower : JSString → JSString)
    (truthy : V → Bool) (D : Directory V) (n : JSString)
    (h : (getProp D n).any (PropertyValue.isTruthy truthy) = false) :
    fetchCountryData lower truthy D n =
      match D.find? (fun e => decide (lower e.1 = lower n)) with
      | some e => some (PropertyValue.stored e.2)
      | none =>
        match D.find? (fun e => decide (lower n <:+: lower e.1 ∨
            lower e.1 <:+: lower n)) with
        | some e => some (PropertyValue.stored e.2)
        | none => none := by
  have h2 : (fun e : JSString × V => lower e.1 == lower n) =
      (fun e => decide (lower e.1 = lower n)) := by
    funext e
    rw [Bool.eq_iff_iff]
    simp
  have h3 : (fun e : JSString × V => includes (lower e.1) (lower n) ||
      includes (lower n) (lower e.1)) =
      (fun e => decide (lower n <:+: lower e.1 ∨ lower e.1 <:+: lower n)) := by
    funext e
    rw [Bool.eq_iff_iff]
    simp [includes_iff]
  unfold fetchCountryData
  simp only [h, h2, h3]
  rfl

/-- A name that the object does not store but `Object.prototype` has: the
direct read succeeds with the inherited member, whatever the keys are. -/
theorem fetchCountryData_of_inherited {V : Type} (lower : JSString → JSString)
    (truthy : V → Bool) (D : Directory V) (n : JSString)
    (hown : D.lookup n = none) (hname : n ∈ objectPrototypeKeys) :
    fetchCountryData lower truthy D n = some (PropertyValue.inherited n) := by
  have hl : getProp D n = some (PropertyValue.inherited n) := by
    rw [getProp_of_not_own D n hown, if_pos hname]
  unfold fetchCountryData
  rw [hl]
  rfl

/-- The three tiers on the inputs where the direct read behaves as a key test:
for a directory with pairwise distinct keys and truthy (object) values, and a
name that is not a member of `Object.prototype`, `fetchCountryData` (1)
returns the value stored under the name when there is one; (2) otherwise the
value of the first key whose lower-case form equals that of the name; (3)
otherwise the value of the first key whose lower-case form contains, or is
contained in, that of the name; and null exactly when no key passes (3). -/
theorem fetchCountryData_three_tier {V : Type} (lower : JSString → JSString)
    (truthy : V → Bool) (D : Directory V) (n : JSString)
    (hkeys : (D.map Prod.fst).Nodup) (hobj : ∀ e ∈ D, truthy e.2 = true)
    (hname : n ∉ objectPrototypeKeys) :
    (∀ v, (n, v) ∈ D → fetchCountryData lower truthy D n = some (PropertyValue.stored v)) ∧
    ((∀ v, (n, v) ∉ D) → ∀ e,
      D.find? (fun e => decide (lower e.1 = lower n)) = some e →
      fetchCountryData lower truthy D n = some (PropertyValue.stored e.2)) ∧
    ((∀ v, (n, v) ∉ D) → (∀ e ∈ D, lower e.1 ≠ lower n) → ∀ e,
      D.find? (fun e => decide (lower n <:+: lower e.1 ∨ lower e.1 <:+: lower n)) = some e →
      fetchCountryData lower truthy D n = some (PropertyValue.stored e.2)) ∧
    (fetchCountryData lower truthy D n = none ↔
      ∀ e ∈ D, ¬ (lower n <:+: lower e.1 ∨ lower e.1 <:+: lower n)) := by
  have hdirect : ∀ v, (n, v) ∈ D →
      fetchCountryData lower truthy D n = some (PropertyValue.stored v) := by
    intro v hv
    have hl : getProp D n = some (PropertyValue.stored v) :=
      getProp_of_lookup_some D n v (lookup_eq_some_of_mem D n v hkeys hv)
    have ht : truthy v = true := hobj (n, v) hv
    unfold fetchCountryData
    rw [hl]
    simp [PropertyValue.isTruthy, ht]
  have hmiss : (∀ v, (n, v) ∉ D) →
      (getProp D n).any (PropertyValue.isTruthy truthy) = false := by
    intro h
    rw [getProp_of_not_own D n (lookup_eq_none_of_not_mem D n h), if_neg hname]
    rfl
  refine ⟨hdirect, ?_, ?_, ?_⟩
  · intro hno e he
    rw [fetchCountryData_after_direct lower truthy D n (hmiss hno), he]
  · intro hno hci e he
    have h2 : D.find? (fun e => decide (lower e.1 = lower n)) = none := by
      rw [List.find?_eq_none]
      intro x hx
      simpa using hci x hx
    rw [fetchCountryData_after_direct lower truthy D n (hmiss hno), h2, he]
  · constructor
    · intro hnone e he
      by_cases hkey : ∃ v, (n, v) ∈ D
      · obtain ⟨v, hv⟩ := hkey
        rw [hdirect v hv] at hnone
        cases hnone
      · have hno : ∀ v, (n, v) ∉ D := fun v hv => hkey ⟨v, hv⟩
        rw [fetchCountryData_after_direct lower truthy D n (hmiss hno)] at hnone
        split at hnone
        · cases hnone
        · split at hnone
          · cases hnone
          · rename_i h3
            have := List.find?_eq_none.mp h3 e he
            simpa using this
    · intro hall
      have hno : ∀ v, (n, v) ∉ D := fun v hv =>
        hall (n, v) hv (Or.inl (List.infix_refl _))
      have h2 : D.find? (fun e => decide (lower e.1 = lower n)) = none := by
        rw [List.find?_eq_none]
        intro x hx
        have hx2 := hall x hx
        simp only [decide_eq_true_eq]
        intro heq
        exact hx2 (Or.inl (heq ▸ List.infix_refl _))
      have h3 : D.find? (fun e => decide (lower n <:+: lower e.1 ∨
          lower e.1 <:+: lower n)) = none := by
        rw [List.find?_eq_none]
        intro x hx
        simpa using hall x hx
      rw [fetchCountryData_after_direct lower truthy D n (hmiss hno), h2, h3]

/-- An instance of the three tiers: looking up "Chadwick" in the directory with
the single key "Chad" returns the value stored under "Chad", by the third
tier. -/
theorem fetchCountryData_three_tier_witness :
    fetchCountryData asciiLower (fun _ : Nat => true) [(str "Chad", 7)] (str "Chadwick") =
      some (PropertyValue.stored 7) :=
  (fetchCountryData_three_tier asciiLower (fun _ : Nat => true) [(str "Chad", 7)]
    (str "Chadwick") (by decide) (by decide) (by decide)).2.2.1
    (fun _ hv => absurd (congrArg Prod.fst (List.mem_singleton.mp hv))
      (show str "Chadwick" ≠ str "Chad" by decide))
    (by decide) (str "Chad", 7) (by decide)

/-- C6 (evaluation at the failing inputs): looked up in the directory with the
single key "Chad", the name "constructor" makes `fetchCountryData` return the
member of `Object.prototype` of that name, although no key passes the test of
the third tier, for which the claim gives null; the same holds for every
directory and every name of `Object.prototype` that the directory does not
store. And since the first tier tests the truth value of what it reads, with
the keys "chad" (value 1) and "Chad" (falsy value 0) the name "Chad" returns
the value stored under "chad". -/
theorem fetchCountryData_inherited_name :
    fetchCountryData asciiLower (fun _ : Nat => true) [(str "Chad", 7)] (str "constructor") =
      some (PropertyValue.inherited (str "constructor")) ∧
    (∀ e ∈ [(str "Chad", (7 : Nat))],
      ¬ (asciiLower (str "constructor") <:+: asciiLower e.1 ∨
        asciiLower e.1 <:+: asciiLower (str "constructor"))) ∧
    (∀ (V : Type) (lower : JSString → JSString) (truthy : V → Bool) (D : Directory V)
      (n : JSString), D.lookup n = none → n ∈ objectPrototypeKeys →
      fetchCountryData lower truthy D n = some (PropertyValue.inherited n)) ∧
    fetchCountryData asciiLower (fun v : Nat => decide (v ≠ 0))
      [(str "chad", 1), (str "Chad", 0)] (str "Chad") = some (PropertyValue.stored 1) := by
  refine ⟨by decide, by decide, ?_, by decide⟩
  intro V lower truthy D n hown hname
  exact fetchCountryData_of_inherited lower truthy D n hown hname

/-! ## Selection controller: one-step facts -/

theorem addActive_items (s : AutocompleteState) : (addActive s).items = s.items := by
  unfold addActive
  dsimp only
  split_ifs <;> rfl

theorem addActive_focus (s : AutocompleteState) :
    (addActive s).currentFocus =
      if s.currentFocus ≥ (s.items.length : Int) then 0
      else if s.currentFocus < 0 then (s.items.length : Int) - 1
      else s.currentFocus := by
  unfold addActive
  by_cases h1 : s.currentFocus ≥ (s.items.length : Int)
  · have h0 : ¬ ((0 : Int) < 0) := by decide
    simp only [h1, if_true, h0, if_false]
  · by_cases h2 : s.currentFocus < 0
    · simp only [h1, if_false, h2, if_true]
    · simp only [h1, if_false, h2]

theorem addActive_focusValid (s : AutocompleteState) (hN : 1 ≤ s.items.length) :
    FocusValid (addActive s) := by
  unfold FocusValid
  rw [addActive_items, addActive_focus]
  split_ifs <;> omega

theorem arrowDown_eq (s : AutocompleteState) (hN : 1 ≤ s.items.length) :
    handleKeyboardNavigation s Key.ArrowDown =
      addActive { s with currentFocus := s.currentFocus + 1 } := by
  unfold handleKeyboardNavigation
  rw [if_neg (by omega)]

theorem arrowUp_eq (s : AutocompleteState) (hN : 1 ≤ s.items.length) :
    handleKeyboardNavigation s Key.ArrowUp =
      addActive { s with currentFocus := s.currentFocus - 1 } := by
  unfold handleKeyboardNavigation
  rw [if_neg (by omega)]

theorem closeAllLists_focusValid (s : AutocompleteState) : FocusValid (closeAllLists s) :=
  Or.inl rfl

theorem clickItem_focusValid (s : AutocompleteState) (v : JSString) :
    FocusValid (clickItem s v) :=
  Or.inl rfl

theorem onInput_focus (lower : JSString → JSString) (R : List Country)
    (s : AutocompleteState) (text : JSString) :
    (onInput lower R s text).currentFocus = -1 := by
  unfold onInput displaySuggestions
  dsimp only
  split_ifs <;> rfl

theorem handleKeyboardNavigation_focusValid (s : AutocompleteState) (key : Key)
    (h : FocusValid s) : FocusValid (handleKeyboardNavigation s key) := by
  by_cases hN : s.items.length = 0
  · unfold handleKeyboardNavigation
    rw [if_pos hN]
    exact h
  · have hN1 : 1 ≤ s.items.length := by omega
    cases key with
    | ArrowDown =>
      rw [arrowDown_eq s hN1]
      exact addActive_focusValid _ hN1
    | ArrowUp =>
      rw [arrowUp_eq s hN1]
      exact addActive_focusValid _ hN1
    | Enter =>
      unfold handleKeyboardNavigation
      rw [if_neg hN]
      simp only
      split_ifs
      · split
        · exact clickItem_focusValid _ _
        · exact h
      · exact h
    | Tab =>
      unfold handleKeyboardNavigation
      rw [if_neg hN]
      simp only
      split_ifs
      · split
        · exact clickItem_focusValid _ _
        · exact h
      · split
        · exact clickItem_focusValid _ _
        · exact h
    | other =>
      unfold handleKeyboardNavigation
      rw [if_neg hN]
      exact h

theorem step_focusValid (lower : JSString → JSString) (R : List Country)
    (s : AutocompleteState) (e : Event) (h : FocusValid s) :
    FocusValid (step lower R s e) := by
  cases e with
  | input text => exact Or.inl (onInput_focus lower R s text)
  | keydown key => exact handleKeyboardNavigation_focusValid s key h
  | clickSuggestion i =>
    show FocusValid (match s.items[i]? with
      | some value => clickItem s value
      | none => s)
    split
    · exact clickItem_focusValid _ _
    · exact h
  | clickElsewhere => exact closeAllLists_focusValid s
  | clickInput => exact h

/-! ## C7 -/

/-- C7: in every reachable state of the autocomplete controller (any sequence
of input events, key presses, clicks on a suggestion, clicks elsewhere and
clicks on the text box, from a state with focus -1), `currentFocus` is -1 or
an index into the list of displayed suggestions. -/
theorem reachable_focus_valid (lower : JSString → JSString) (R : List Country)
    (s : AutocompleteState) (h : Reachable lower R s) :
    s.currentFocus = -1 ∨
      (0 ≤ s.currentFocus ∧ s.currentFocus < (s.items.length : Int)) := by
  induction h with
  | init s h0 => exact Or.inl h0
  | next s e _ ih => exact step_focusValid lower R s e ih

/-- Witness for C7: typing "fra" over the France directory and pressing
ArrowDown reaches a state with two suggestions and focus 0. -/
theorem reachable_focus_valid_witness :
    (step asciiLower franceList
      (step asciiLower franceList ⟨[], [], -1⟩ (Event.input (str "fra")))
      (Event.keydown Key.ArrowDown)) = ⟨str "fra", [str "France", str "Francophone Land"], 0⟩ ∧
    ((0 : Int) = -1 ∨ ((0 : Int) ≤ 0 ∧
      (0 : Int) < (([str "France", str "Francophone Land"] : List JSString).length : Int))) :=
  ⟨by decide,
    reachable_focus_valid asciiLower franceList
      ⟨str "fra", [str "France", str "Francophone Land"], 0⟩
      (by
        have h : Reachable asciiLower franceList _ :=
          Reachable.next _ (Event.keydown Key.ArrowDown)
            (Reachable.next _ (Event.input (str "fra")) (Reachable.init ⟨[], [], -1⟩ rfl))
        have e : (step asciiLower franceList
            (step asciiLower franceList ⟨[], [], -1⟩ (Event.input (str "fra")))
            (Event.keydown Key.ArrowDown)) =
            ⟨str "fra", [str "France", str "Francophone Land"], 0⟩ := by decide
        rw [e] at h
        exact h)⟩

/-! ## C8 -/

/-- C8: ArrowUp on a list of N >= 1 suggestions keeps the list and moves the
focus from -1 to N-1, from 0 to N-1, and from i with 0 < i < N to i-1. -/
theorem arrowUp_focus (s : AutocompleteState) (hN : 1 ≤ s.items.length) :
    (handleKeyboardNavigation s Key.ArrowUp).items = s.items ∧
    (s.currentFocus = -1 →
      (handleKeyboardNavigation s Key.ArrowUp).currentFocus = (s.items.length : Int) - 1) ∧
    (s.currentFocus = 0 →
      (handleKeyboardNavigation s Key.ArrowUp).currentFocus = (s.items.length : Int) - 1) ∧
    (0 < s.currentFocus → s.currentFocus < (s.items.length : Int) →
      (handleKeyboardNavigation s Key.ArrowUp).currentFocus = s.currentFocus - 1) := by
  rw [arrowUp_eq s hN, addActive_items, addActive_focus]
  dsimp only
  refine ⟨rfl, ?_, ?_, ?_⟩
  · intro h
    split_ifs <;> omega
  · intro h
    split_ifs <;> omega
  · intro h1 h2
    split_ifs <;> omega

/-- Witness for C8: three suggestions; ArrowUp from -1 and from 0 gives 2, and
from 2 gives 1. -/
theorem arrowUp_focus_witness :
    (handleKeyboardNavigation ⟨[], [str "a", str "b", str "c"], -1⟩ Key.ArrowUp).currentFocus = 2 ∧
    (handleKeyboardNavigation ⟨[], [str "a", str "b", str "c"], 0⟩ Key.ArrowUp).currentFocus = 2 ∧
    (handleKeyboardNavigation ⟨[], [str "a", str "b", str "c"], 2⟩ Key.ArrowUp).currentFocus = 1 :=
  ⟨(arrowUp_focus ⟨[], [str "a", str "b", str "c"], -1⟩ (by decide)).2.1 rfl,
    (arrowUp_focus ⟨[], [str "a", str "b", str "c"], 0⟩ (by decide)).2.2.1 rfl,
    (arrowUp_focus ⟨[], [str "a", str "b", str "c"], 2⟩ (by decide)).2.2.2
      (by decide) (by decide)⟩

/-! ## C9 -/

theorem arrowDown_focus_mod (s : AutocompleteState) (hN : 1 ≤ s.items.length)
    (hlo : -1 ≤ s.currentFocus) (hhi : s.currentFocus < (s.items.length : Int)) :
    handleKeyboardNavigation s Key.ArrowDown =
      { s with currentFocus := (s.currentFocus + 1) % (s.items.length : Int) } := by
  have hfocus : (handleKeyboardNavigation s Key.ArrowDown).currentFocus =
      (s.currentFocus + 1) % (s.items.length : Int) := by
    rw [arrowDown_eq s hN, addActive_focus]
    dsimp only
    by_cases hlast : s.currentFocus + 1 = (s.items.length : Int)
    · rw [hlast, Int.emod_self]
      split_ifs <;> omega
    · rw [Int.emod_eq_of_lt (by omega) (by omega)]
      split_ifs <;> omega
  have hitems : (handleKeyboardNavigation s Key.ArrowDown).items = s.items := by
    rw [arrowDown_eq s hN, addActive_items]
  have hinput : (handleKeyboardNavigation s Key.ArrowDown).inputValue = s.inputValue := by
    rw [arrowDown_eq s hN]
    unfold addActive
    dsimp only
    split_ifs <;> rfl
  cases hk : handleKeyboardNavigation s Key.ArrowDown with
  | mk iv it cf =>
    rw [hk] at hfocus hitems hinput
    simp only at hfocus hitems hinput
    rw [hfocus, hitems, hinput]

/-- C9: ArrowDown on a list of count suggestions: when count >= 1 and the focus
f is -1 or in [0, count), the list is kept and the new focus is
(f + 1) mod count; when count = 0 the state is unchanged. -/
theorem arrowDown_focus (s : AutocompleteState) :
    (1 ≤ s.items.length →
      (s.currentFocus = -1 ∨
        (0 ≤ s.currentFocus ∧ s.currentFocus < (s.items.length : Int))) →
      (handleKeyboardNavigation s Key.ArrowDown).items = s.items ∧
      (handleKeyboardNavigation s Key.ArrowDown).currentFocus =
        (s.currentFocus + 1) % (s.items.length : Int)) ∧
    (s.items.length = 0 → handleKeyboardNavigation s Key.ArrowDown = s) := by
  constructor
  · intro hN hf
    rw [arrowDown_focus_mod s hN (by omega) (by omega)]
    exact ⟨rfl, rfl⟩
  · intro h0
    unfold handleKeyboardNavigation
    rw [if_pos h0]

/-- Witness for C9: with three suggestions ArrowDown moves the focus from 2
back to 0; with no suggestion it leaves the state as it is. -/
theorem arrowDown_focus_witness :
    (handleKeyboardNavigation ⟨[], [str "a", str "b", str "c"], 2⟩ Key.ArrowDown).currentFocus =
      (2 + 1) % 3 ∧
    handleKeyboardNavigation ⟨[], [], -1⟩ Key.ArrowDown = ⟨[], [], -1⟩ :=
  ⟨((arrowDown_focus ⟨[], [str "a", str "b", str "c"], 2⟩).1 (by decide)
      (Or.inr ⟨by decide, by decide⟩)).2,
    (arrowDown_focus ⟨[], [], -1⟩).2 rfl⟩

/-! ## C10 -/

theorem moveNextTimes_focus (k : Nat) (s : AutocompleteState) (hN : 1 ≤ s.items.length)
    (hlo : 0 ≤ s.currentFocus) (hhi : s.currentFocus < (s.items.length : Int)) :
    moveNextTimes k s =
      { s with currentFocus := (s.currentFocus + (k : Int)) % (s.items.length : Int) } := by
  induction k with
  | zero =>
    unfold moveNextTimes
    rw [Function.iterate_zero, id, Nat.cast_zero, Int.add_zero,
      Int.emod_eq_of_lt hlo hhi]
  | succ k ih =>
    have hpos : (0 : Int) < (s.items.length : Int) := by omega
    have hstep : moveNextTimes (k + 1) s =
        handleKeyboardNavigation (moveNextTimes k s) Key.ArrowDown := by
      unfold moveNextTimes
      rw [Function.iterate_succ_apply']
    have hnonneg := Int.emod_nonneg (s.currentFocus + (k : Int)) (ne_of_gt hpos)
    have hdown := arrowDown_focus_mod
      ⟨s.inputValue, s.items, (s.currentFocus + (k : Int)) % (s.items.length : Int)⟩ hN
      (by dsimp only; omega) (Int.emod_lt_of_pos _ hpos)
    rw [hstep, ih, hdown]
    dsimp only
    rw [Int.emod_add_emod, Nat.cast_succ, Int.add_assoc]

/-- C10 (as stated, refuted): with three suggestions and no focus, three
ArrowDown steps leave the focus at 2, not back at -1. -/
theorem moveNext_cycle_fails_from_no_focus :
    (moveNextTimes 3 ⟨[], [str "a", str "b", str "c"], -1⟩).currentFocus = 2 ∧
    (moveNextTimes 3 ⟨[], [str "a", str "b", str "c"], -1⟩).currentFocus ≠
      (⟨[], [str "a", str "b", str "c"], -1⟩ : AutocompleteState).currentFocus := by
  decide

/-- C10 (amended): for every list of N >= 1 suggestions, N consecutive
ArrowDown steps return the focus to its starting value when that value is an
index in [0, N); from the no-focus value -1 they leave the focus at N-1. -/
theorem moveNext_cycle (s : AutocompleteState) (hN : 1 ≤ s.items.length) :
    (0 ≤ s.currentFocus → s.currentFocus < (s.items.length : Int) →
      (moveNextTimes s.items.length s).currentFocus = s.currentFocus) ∧
    (s.currentFocus = -1 →
      (moveNextTimes s.items.length s).currentFocus = (s.items.length : Int) - 1) := by
  constructor
  · intro hlo hhi
    rw [moveNextTimes_focus _ s hN hlo hhi]
    dsimp only
    rw [Int.add_emod_self, Int.emod_eq_of_lt hlo hhi]
  · intro hneg
    obtain ⟨m, hm⟩ : ∃ m, s.items.length = m + 1 := ⟨s.items.length - 1, by omega⟩
    have hfirst := arrowDown_focus_mod s hN (by omega) (by omega)
    have hsplit : moveNextTimes (m + 1) s =
        moveNextTimes m (handleKeyboardNavigation s Key.ArrowDown) := by
      unfold moveNextTimes
      rw [Function.iterate_succ_apply]
    rw [hm, hsplit, hfirst, hneg]
    have hz : ((-1 : Int) + 1) % ((m + 1 : Nat) : Int) = 0 := by simp
    rw [← hm] at hz ⊢
    have hrest := moveNextTimes_focus m ⟨s.inputValue, s.items, 0⟩ hN (le_refl _)
      (by dsimp only; omega)
    rw [hz, hrest]
    dsimp only
    rw [Int.zero_add, Int.emod_eq_of_lt (by omega) (by omega)]
    omega

/-- Witness for C10 (amended): three suggestions, starting at focus 1 and at
focus -1. -/
theorem moveNext_cycle_witness :
    (moveNextTimes 3 ⟨[], [str "a", str "b", str "c"], 1⟩).currentFocus = 1 ∧
    (moveNextTimes 3 ⟨[], [str "a", str "b", str "c"], -1⟩).currentFocus = 3 - 1 :=
  ⟨(moveNext_cycle ⟨[], [str "a", str "b", str "c"], 1⟩ (by decide)).1
      (by decide) (by decide),
    (moveNext_cycle ⟨[], [str "a", str "b", str "c"], -1⟩ (by decide)).2 rfl⟩

/-! ## C11 -/

theorem itemAt_of_valid (items : List JSString) (f : Int) (hlo : 0 ≤ f)
    (hhi : f < (items.length : Int)) :
    ∃ value, items[f.toNat]? = some value ∧ itemAt items f = some value := by
  have hlt : f.toNat < items.length := by omega
  refine ⟨items[f.toNat], List.getElem?_eq_getElem hlt, ?_⟩
  unfold itemAt
  rw [if_pos hlo]
  exact List.getElem?_eq_getElem hlt

/-- C11 (as stated, refuted): with two suggestions and no focus, Tab selects
the first suggestion and clears the list, so the state is not left unchanged
although more than one candidate exists. -/
theorem tab_without_focus_commits_first :
    handleKeyboardNavigation ⟨str "fra", [str "France", str "Francophone Land"], -1⟩ Key.Tab =
      ⟨str "France", [], -1⟩ ∧
    handleKeyboardNavigation ⟨str "fra", [str "France", str "Francophone Land"], -1⟩ Key.Tab ≠
      ⟨str "fra", [str "France", str "Francophone Land"], -1⟩ := by
  decide

/-- C11 (amended): with focus f on a list of count suggestions, if
0 <= f < count then Enter and Tab both put the name of suggestion f in the text
box, clear the list and reset the focus to -1; if f = -1 then Enter leaves the
state unchanged, and Tab selects the first suggestion in the same way when the
list is not empty and leaves the state unchanged when it is empty. -/
theorem commit_selects_focused (s : AutocompleteState) :
    (0 ≤ s.currentFocus → s.currentFocus < (s.items.length : Int) →
      ∃ value, s.items[s.currentFocus.toNat]? = some value ∧
        handleKeyboardNavigation s Key.Enter = ⟨value, [], -1⟩ ∧
        handleKeyboardNavigation s Key.Tab = ⟨value, [], -1⟩) ∧
    (s.currentFocus = -1 → handleKeyboardNavigation s Key.Enter = s) ∧
    (s.currentFocus = -1 → ∀ first rest, s.items = first :: rest →
      handleKeyboardNavigation s Key.Tab = ⟨first, [], -1⟩) ∧
    (s.currentFocus = -1 → s.items = [] → handleKeyboardNavigation s Key.Tab = s) := by
  refine ⟨?_, ?_, ?_, ?_⟩
  · intro hlo hhi
    obtain ⟨value, hget, hat⟩ := itemAt_of_valid s.items s.currentFocus hlo hhi
    have hN : ¬ s.items.length = 0 := by omega
    have hgt : s.currentFocus > -1 := by omega
    refine ⟨value, hget, ?_, ?_⟩
    · unfold handleKeyboardNavigation
      rw [if_neg hN]
      simp only [hgt, if_true, hat]
      rfl
    · unfold handleKeyboardNavigation
      rw [if_neg hN]
      simp only [hgt, if_true, hat]
      rfl
  · intro hneg
    unfold handleKeyboardNavigation
    have hgt : ¬ s.currentFocus > -1 := by omega
    split_ifs
    · rfl
    · simp only [hgt, if_false]
  · intro hneg first rest hitems
    have hN : ¬ s.items.length = 0 := by rw [hitems]; simp
    have hgt : ¬ s.currentFocus > -1 := by omega
    have hat : itemAt s.items 0 = some first := by
      rw [hitems]
      simp [itemAt]
    unfold handleKeyboardNavigation
    rw [if_neg hN]
    simp only [hgt, if_false, hat]
    rfl
  · intro _ hitems
    unfold handleKeyboardNavigation
    rw [if_pos (by rw [hitems]; rfl)]

/-- Witness for C11 (amended): two suggestions; Enter and Tab at focus 1 select
"Francophone Land", Enter without focus changes nothing, Tab without focus
selects "France". -/
theorem commit_selects_focused_witness :
    handleKeyboardNavigation ⟨str "fra", [str "France", str "Francophone Land"], -1⟩
      Key.Enter = ⟨str "fra", [str "France", str "Francophone Land"], -1⟩ ∧
    handleKeyboardNavigation ⟨str "fra", [str "France", str "Francophone Land"], -1⟩
      Key.Tab = ⟨str "France", [], -1⟩ ∧
    ∃ value, [str "France", str "Francophone Land"][(1 : Int).toNat]? = some value ∧
      handleKeyboardNavigation ⟨str "fra", [str "France", str "Francophone Land"], 1⟩
        Key.Enter = ⟨value, [], -1⟩ ∧
      handleKeyboardNavigation ⟨str "fra", [str "France", str "Francophone Land"], 1⟩
        Key.Tab = ⟨value, [], -1⟩ :=
  ⟨(commit_selects_focused ⟨str "fra", [str "France", str "Francophone Land"], -1⟩).2.1 rfl,
    (commit_selects_focused ⟨str "fra", [str "France", str "Francophone Land"], -1⟩).2.2.1
      rfl (str "France") [str "Francophone Land"] rfl,
    (commit_selects_focused ⟨str "fra", [str "France", str "Francophone Land"], 1⟩).1
      (by decide) (by decide)⟩

/-! ## C12 -/

/-- C12: every input event leaves `currentFocus` at -1, whatever the previous
state, the text and the resulting list; and more generally every event whose
handling changes the displayed list leaves `currentFocus` at -1. -/
theorem list_change_resets_focus (lower : JSString → JSString) (R : List Country)
    (s : AutocompleteState) :
    (∀ text, (step lower R s (Event.input text)).currentFocus = -1) ∧
    (∀ e, (step lower R s e).items ≠ s.items → (step lower R s e).currentFocus = -1) := by
  constructor
  · intro text
    exact onInput_focus lower R s text
  · intro e hchange
    cases e with
    | input text => exact onInput_focus lower R s text
    | keydown key =>
      have hstep : step lower R s (Event.keydown key) = handleKeyboardNavigation s key := rfl
      rw [hstep] at hchange ⊢
      by_cases hN : s.items.length = 0
      · exfalso
        apply hchange
        unfold handleKeyboardNavigation
        rw [if_pos hN]
      · have hN1 : 1 ≤ s.items.length := by omega
        cases key with
        | ArrowDown =>
          exfalso
          apply hchange
          rw [arrowDown_eq s hN1, addActive_items]
        | ArrowUp =>
          exfalso
          apply hchange
          rw [arrowUp_eq s hN1, addActive_items]
        | Enter =>
          revert hchange
          unfold handleKeyboardNavigation
          rw [if_neg hN]
          dsimp only
          split_ifs
          · split
            · intro _; rfl
            · intro h; exact absurd rfl h
          · intro h; exact absurd rfl h
        | Tab =>
          revert hchange
          unfold handleKeyboardNavigation
          rw [if_neg hN]
          dsimp only
          split_ifs
          · split
            · intro _; rfl
            · intro h; exact absurd rfl h
          · split
            · intro _; rfl
            · intro h; exact absurd rfl h
        | other =>
          exfalso
          apply hchange
          unfold handleKeyboardNavigation
          rw [if_neg hN]
    | clickSuggestion i =>
      revert hchange
      show (match s.items[i]? with
        | some value => clickItem s value
        | none => s).items ≠ s.items →
        (match s.items[i]? with
        | some value => clickItem s value
        | none => s).currentFocus = -1
      split
      · intro _; rfl
      · intro h; exact absurd rfl h
    | clickElsewhere => rfl
    | clickInput => exact absurd rfl hchange

/-! ## C13 -/

theorem loadAllCountryData_of_cached {V : Type} (st : ApiState V) (d : Directory V)
    (net : HttpExchange (Directory V)) (hc : st.countryDataCache = some d) :
    FlagAPI.loadAllCountryData st net = (d, st) := by
  unfold FlagAPI.loadAllCountryData
  rw [hc]

theorem loadAllCountryData_of_failed {V : Type} (st : ApiState V)
    (net : HttpExchange (Directory V)) (hc : st.countryDataCache = none)
    (hfail : net.failed = true) :
    FlagAPI.loadAllCountryData st net =
      ([], { st with fetchCount := st.fetchCount + 1 }) := by
  unfold FlagAPI.loadAllCountryData
  rw [hc]
  cases net with
  | networkError => rfl
  | response ok json =>
    cases ok with
    | false => rfl
    | true =>
      cases json with
      | none => rfl
      | some d => simp [HttpExchange.failed] at hfail

theorem loadAllCountryData_of_success {V : Type} (st : ApiState V) (d : Directory V)
    (hc : st.countryDataCache = none) :
    FlagAPI.loadAllCountryData st (HttpExchange.response true (some d)) =
      (d, { countryDataCache := some d, fetchCount := st.fetchCount + 1 }) := by
  unfold FlagAPI.loadAllCountryData
  rw [hc]
  rfl

/-- C13 (evaluation of the three implementations on a failing request):
`fetchCountryData` of `script-assets.js` rejects, that is throws to its caller,
when the request is rejected, when the body does not parse and when the body is
a JSON object, and returns null only for a non-OK status; `fetchCountryData` of
`script.js` resolves to null on every failing request; and in `api.js`, when
the directory is not cached and the request fails, `loadAllCountryData` returns
the empty mapping and `fetchCountryData` resolves, to null for every name that
is not a member of `Object.prototype`, and to the inherited member for a name
that is one. -/
theorem fetchCountryData_on_failed_request :
    (∀ (V : Type) (net : JSString → HttpExchange (JsonBody V)) (name : JSString),
      (net name = HttpExchange.networkError →
        ScriptAssets.fetchCountryData net name = Settled.rejected) ∧
      (net name = HttpExchange.response true none →
        ScriptAssets.fetchCountryData net name = Settled.rejected) ∧
      (∀ zero, net name = HttpExchange.response true (some (JsonBody.object zero)) →
        ScriptAssets.fetchCountryData net name = Settled.rejected) ∧
      (∀ json, net name = HttpExchange.response false json →
        ScriptAssets.fetchCountryData net name = Settled.resolved none)) ∧
    (∀ (V : Type) (net : JSString → HttpExchange (JsonBody V)) (name : JSString),
      (net name).failed = true → Script.fetchCountryData net name = Settled.resolved none) ∧
    (∀ (V : Type) (lower : JSString → JSString) (truthy : V → Bool) (st : ApiState V)
      (net : HttpExchange (Directory V)) (name : JSString),
      st.countryDataCache = none → net.failed = true →
      (FlagAPI.loadAllCountryData st net).1 = [] ∧
      (name ∉ objectPrototypeKeys →
        (FlagAPI.fetchCountryData lower truthy st net name).1 = Settled.resolved none) ∧
      (name ∈ objectPrototypeKeys →
        (FlagAPI.fetchCountryData lower truthy st net name).1 =
          Settled.resolved (some (PropertyValue.inherited name)))) := by
  refine ⟨?_, ?_, ?_⟩
  · intro V net name
    refine ⟨?_, ?_, ?_, ?_⟩
    · intro h
      unfold ScriptAssets.fetchCountryData
      rw [h]
    · intro h
      unfold ScriptAssets.fetchCountryData
      rw [h]
      rfl
    · intro zero h
      unfold ScriptAssets.fetchCountryData
      rw [h]
      rfl
    · intro json h
      unfold ScriptAssets.fetchCountryData
      rw [h]
      rfl
  · intro V net name hfail
    unfold Script.fetchCountryData
    cases hnet : net name with
    | networkError => rfl
    | response ok json =>
      rw [hnet] at hfail
      cases ok with
      | false => rfl
      | true =>
        cases json with
        | none => rfl
        | some d => simp [HttpExchange.failed] at hfail
  · intro V lower truthy st net name hc hfail
    have hload := loadAllCountryData_of_failed st net hc hfail
    refine ⟨by rw [hload], ?_, ?_⟩
    · intro hname
      unfold FlagAPI.fetchCountryData
      rw [hload]
      dsimp only
      have hl : getProp ([] : Directory V) name = none := by
        rw [getProp_of_not_own [] name rfl, if_neg hname]
      have hnone : fetchCountryData lower truthy ([] : Directory V) name = none := by
        unfold fetchCountryData
        rw [hl]
        rfl
      rw [hnone]
    · intro hname
      unfold FlagAPI.fetchCountryData
      rw [hload]
      dsimp only
      rw [fetchCountryData_of_inherited lower truthy [] name rfl hname]

/-! ## C14 -/

theorem loadAllCountryDataSeq_of_cached {V : Type} (d : Directory V)
    (nets : List (HttpExchange (Directory V))) (st : ApiState V)
    (hc : st.countryDataCache = some d) :
    loadAllCountryDataSeq st nets = (nets.map (fun _ => d), st) := by
  induction nets with
  | nil => rfl
  | cons net nets ih =>
    unfold loadAllCountryDataSeq
    rw [loadAllCountryData_of_cached st d net hc]
    dsimp only
    rw [ih]
    rfl

/-- C14: a call of `loadAllCountryData` made with an empty cache whose fetch
succeeds with directory d returns d and stores it; from then on every sequence
of later calls returns d each time and leaves the module state, fetch counter
included, as it is, whatever the network would answer; and a call whose fetch
fails returns the empty mapping and leaves the cache as it was. -/
theorem loadAllCountryData_caches {V : Type} (st : ApiState V) :
    (∀ d : Directory V, st.countryDataCache = none →
      (FlagAPI.loadAllCountryData st (HttpExchange.response true (some d))).1 = d ∧
      (FlagAPI.loadAllCountryData st
        (HttpExchange.response true (some d))).2.countryDataCache = some d ∧
      ∀ nets : List (HttpExchange (Directory V)),
        loadAllCountryDataSeq
          (FlagAPI.loadAllCountryData st (HttpExchange.response true (some d))).2 nets =
        (nets.map (fun _ => d),
          (FlagAPI.loadAllCountryData st (HttpExchange.response true (some d))).2)) ∧
    (∀ net : HttpExchange (Directory V), st.countryDataCache = none → net.failed = true →
      (FlagAPI.loadAllCountryData st net).1 = [] ∧
      (FlagAPI.loadAllCountryData st net).2.countryDataCache = st.countryDataCache ∧
      (FlagAPI.loadAllCountryData st net).2.fetchCount = st.fetchCount + 1) := by
  constructor
  · intro d hc
    rw [loadAllCountryData_of_success st d hc]
    refine ⟨rfl, rfl, ?_⟩
    intro nets
    exact loadAllCountryDataSeq_of_cached d nets _ rfl
  · intro net hc hfail
    rw [loadAllCountryData_of_failed st net hc hfail]
    exact ⟨rfl, hc.symm ▸ rfl, rfl⟩

/-- Witness for C14: an empty cache, a successful fetch of the directory with
the single key "Chad", then three more calls with a dead network. -/
theorem loadAllCountryData_caches_witness :
    loadAllCountryDataSeq (⟨none, 0⟩ : ApiState Nat)
      [HttpExchange.response true (some [(str "Chad", 7)]), HttpExchange.networkError,
        HttpExchange.response false none, HttpExchange.networkError] =
      ([[(str "Chad", 7)], [(str "Chad", 7)], [(str "Chad", 7)], [(str "Chad", 7)]],
        ⟨some [(str "Chad", 7)], 1⟩) ∧
    loadAllCountryDataSeq
      (FlagAPI.loadAllCountryData (⟨none, 0⟩ : ApiState Nat)
        (HttpExchange.response true (some [(str "Chad", 7)]))).2
      [HttpExchange.networkError] =
      (([HttpExchange.networkError] : List (HttpExchange (Directory Nat))).map
          (fun _ => [(str "Chad", 7)]),
        (FlagAPI.loadAllCountryData (⟨none, 0⟩ : ApiState Nat)
          (HttpExchange.response true (some [(str "Chad", 7)]))).2) :=
  ⟨by decide,
    ((loadAllCountryData_caches (⟨none, 0⟩ : ApiState Nat)).1 [(str "Chad", 7)] rfl).2.2
      [HttpExchange.networkError]⟩

/-! ## C15 -/

/-- C15: for every picker list and filter string, with q the lower-cased
trimmed filter, `renderList` shows the whole list in order when q is empty and
otherwise exactly the records whose lower-cased name or lower-cased region
contains q, in list order; in particular a list whose records all match is
shown whole, whatever its length. -/
theorem renderList_full_text (lower : JSString → JSString) (L : List PickerCountry)
    (s : JSString) :
    renderList lower L s =
      (if lower (trim s) = [] then L
       else L.filter (fun c => decide (lower (trim s) <:+: lower c.name ∨
          lower (trim s) <:+: lower c.region))) ∧
    ((∀ c ∈ L, lower (trim s) <:+: lower c.name ∨ lower (trim s) <:+: lower c.region) →
      renderList lower L s = L) := by
  have hmain : renderList lower L s =
      (if lower (trim s) = [] then L
       else L.filter (fun c => decide (lower (trim s) <:+: lower c.name ∨
          lower (trim s) <:+: lower c.region))) := by
    unfold renderList
    dsimp only
    by_cases hq : lower (trim s) = []
    · rw [if_pos hq, if_neg (not_not.mpr hq)]
    · rw [if_neg hq, if_pos hq]
      apply List.filter_congr
      intro c _
      rw [Bool.eq_iff_iff]
      simp [includes_iff]
  refine ⟨hmain, ?_⟩
  intro hall
  rw [hmain]
  split_ifs
  · rfl
  · rw [List.filter_eq_self]
    intro c hc
    simpa using hall c hc

/-! ## C18 -/

theorem replaceFirst_at_start (pat rep s : JSString) (h : pat <+: s) :
    replaceFirst pat rep s = rep ++ s.drop pat.length := by
  cases s with
  | nil =>
    have hp : pat = [] := List.prefix_nil.mp h
    subst hp
    simp [replaceFirst]
  | cons c rest =>
    unfold replaceFirst
    rw [if_pos (List.isPrefixOf_iff_prefix.mpr h)]

theorem replaceFirst_skip (pat rep : JSString) (c : Nat) (rest : JSString)
    (h : ¬ pat <+: c :: rest) :
    replaceFirst pat rep (c :: rest) = c :: replaceFirst pat rep rest := by
  have hb : ¬ pat.isPrefixOf (c :: rest) = true := fun hp => h (List.isPrefixOf_iff_prefix.mp hp)
  conv_lhs => unfold replaceFirst
  rw [if_neg hb]

/-- What `replaceFirst` computes: the string itself when the pattern does not
occur, and otherwise the string with the leftmost occurrence replaced. -/
theorem replaceFirst_spec (pat rep : JSString) (s : JSString) :
    (¬ pat <:+: s → replaceFirst pat rep s = s) ∧
    (∀ pre post, s = pre ++ pat ++ post →
      (∀ pre2 post2, s = pre2 ++ pat ++ post2 → pre.length ≤ pre2.length) →
      replaceFirst pat rep s = pre ++ rep ++ post) := by
  induction s with
  | nil =>
    constructor
    · intro hno
      have hp : pat ≠ [] := by
        rintro rfl
        exact hno List.nil_infix
      simp [replaceFirst, hp]
    · intro pre post hs _
      have h1 := List.append_eq_nil.mp hs.symm
      have h2 := List.append_eq_nil.mp h1.1
      rw [h1.2, h2.1, h2.2]
      simp [replaceFirst]
  | cons c rest ih =>
    by_cases hpre : pat <+: c :: rest
    · constructor
      · intro hno
        exact absurd hpre.isInfix hno
      · intro pre post hs hmin
        obtain ⟨t, ht⟩ := hpre
        have hlen := hmin [] t (by rw [List.nil_append, ht])
        have hnil : pre = [] := List.length_eq_zero.mp (Nat.le_zero.mp hlen)
        subst hnil
        rw [replaceFirst_at_start pat rep _ ⟨t, ht⟩, hs]
        simp
    · rw [replaceFirst_skip pat rep c rest hpre]
      constructor
      · intro hno
        have hrest : ¬ pat <:+: rest := fun h => hno (h.trans (List.suffix_cons c rest).isInfix)
        rw [ih.1 hrest]
      · intro pre post hs hmin
        cases pre with
        | nil =>
          exfalso
          apply hpre
          exact ⟨post, by rw [hs]; simp⟩
        | cons a pre1 =>
          simp only [List.cons_append, List.cons.injEq] at hs
          obtain ⟨hca, hrest⟩ := hs
          subst hca
          have hmin1 : ∀ pre2 post2, rest = pre2 ++ pat ++ post2 →
              pre1.length ≤ pre2.length := by
            intro pre2 post2 h2
            have := hmin (c :: pre2) post2 (by rw [h2]; simp)
            simpa using this
          rw [ih.2 pre1 post hrest hmin1]
          simp

/-- The render of `ui.js` without extended facts: the capital is the info text
with the leftmost "Capital: " removed, or "-" when info is missing or nothing
is left, and the five extended fields keep their text. -/
theorem FlagUI_updateUI_without_extended (fmt : Int → JSString) (page : Page)
    (snap : FlagSnapshot) :
    (snap.info = none → (FlagUI.updateUI fmt page snap none).capital = str "-") ∧
    (∀ info, snap.info = some info → replaceFirst (str "Capital: ") [] info = [] →
      (FlagUI.updateUI fmt page snap none).capital = str "-") ∧
    (∀ info, snap.info = some info → replaceFirst (str "Capital: ") [] info ≠ [] →
      (FlagUI.updateUI fmt page snap none).capital =
        replaceFirst (str "Capital: ") [] info) ∧
    (FlagUI.updateUI fmt page snap none).population = page.population ∧
    (FlagUI.updateUI fmt page snap none).region = page.region ∧
    (FlagUI.updateUI fmt page snap none).languages = page.languages ∧
    (FlagUI.updateUI fmt page snap none).currency = page.currency ∧
    (FlagUI.updateUI fmt page snap none).timezones = page.timezones := by
  refine ⟨?_, ?_, ?_, rfl, rfl, rfl, rfl, rfl⟩
  · intro h
    simp [FlagUI.updateUI, h]
  · intro info h hempty
    simp [FlagUI.updateUI, h, hempty]
  · intro info h hne
    simp [FlagUI.updateUI, h, hne]

/-- The render of `script.js` without extended facts: as for `ui.js`. -/
theorem Script_updateUI_without_extended (fmt : Int → JSString) (page : Page)
    (snap : FlagSnapshot) :
    (snap.info = none → (Script.updateUI fmt page snap none).capital = str "-") ∧
    (∀ info, snap.info = some info → replaceFirst (str "Capital: ") [] info = [] →
      (Script.updateUI fmt page snap none).capital = str "-") ∧
    (∀ info, snap.info = some info → replaceFirst (str "Capital: ") [] info ≠ [] →
      (Script.updateUI fmt page snap none).capital =
        replaceFirst (str "Capital: ") [] info) ∧
    (Script.updateUI fmt page snap none).population = page.population ∧
    (Script.updateUI fmt page snap none).region = page.region ∧
    (Script.updateUI fmt page snap none).languages = page.languages ∧
    (Script.updateUI fmt page snap none).currency = page.currency ∧
    (Script.updateUI fmt page snap none).timezones = page.timezones := by
  refine ⟨?_, ?_, ?_, rfl, rfl, rfl, rfl, rfl⟩
  · intro h
    simp [Script.updateUI, h]
  · intro info h hempty
    simp [Script.updateUI, h, hempty]
  · intro info h hne
    simp [Script.updateUI, h, hne]

/-- C18 (evaluation at the snapshot whose info is exactly "Capital: ", without
extended facts): `updateUI` of `script-assets.js` sets the capital text to the
empty string, where `updateUI` of `ui.js` and of `script.js` set it to "-";
all three leave the population, region, languages, currency and timezones
texts as they were. -/
theorem updateUI_label_only_capital (fmt : Int → JSString) :
    (ScriptAssets.updateUI fmt blankPage labelOnlySnapshot none).capital = [] ∧
    (ScriptAssets.updateUI fmt blankPage labelOnlySnapshot none).capital ≠ str "-" ∧
    (FlagUI.updateUI fmt blankPage labelOnlySnapshot none).capital = str "-" ∧
    (Script.updateUI fmt blankPage labelOnlySnapshot none).capital = str "-" ∧
    (∀ (page : Page) (snap : FlagSnapshot),
      (ScriptAssets.updateUI fmt page snap none).population = page.population ∧
      (ScriptAssets.updateUI fmt page snap none).region = page.region ∧
      (ScriptAssets.updateUI fmt page snap none).languages = page.languages ∧
      (ScriptAssets.updateUI fmt page snap none).currency = page.currency ∧
      (ScriptAssets.updateUI fmt page snap none).timezones = page.timezones) := by
  have h1 : (ScriptAssets.updateUI fmt blankPage labelOnlySnapshot none).capital = [] := rfl
  refine ⟨h1, ?_, rfl, rfl, ?_⟩
  · rw [h1]
    decide
  · intro page snap
    exact ⟨rfl, rfl, rfl, rfl, rfl⟩

/-! ## C19 -/

theorem getProp_of_find_key {V : Type} (p : JSString → Bool) (D : Directory V)
    (e : JSString × V) (h : D.find? (fun x => p x.1) = some e) :
    getProp D e.1 = some (PropertyValue.stored e.2) := by
  apply getProp_of_lookup_some
  induction D with
  | nil => simp at h
  | cons x D ih =>
    obtain ⟨k, v⟩ := x
    have hpe : p e.1 = true := by
      have := List.find?_some h
      simpa using this
    rw [List.find?_cons] at h
    by_cases hx : p k = true
    · simp only [hx] at h
      cases h
      simp [List.lookup_cons]
    · have hx2 : p k = false := by simpa using hx
      simp only [hx2] at h
      have hne : e.1 ≠ k := by
        intro heq
        rw [heq] at hpe
        exact hx hpe
      rw [List.lookup_cons, beq_false_of_ne hne]
      exact ih h

/-- C19: for every loaded mapping and every non-empty name, the lookup of
`getLocalCountryCoordinates` (map.js) returns what the lookup of
`fetchCountryData` (api.js) returns on the same mapping and name; for the
empty name map.js returns null, while api.js returns the first entry of a
non-empty mapping (here: the entry under "Chad"). -/
theorem getLocalCountryCoordinates_agrees {V : Type} (lower : JSString → JSString)
    (truthy : V → Bool) (D : Directory V) :
    (∀ n : JSString, n ≠ [] →
      getLocalCountryCoordinates lower truthy (some D) n = fetchCountryData lower truthy D n) ∧
    getLocalCountryCoordinates lower truthy (some D) [] = none ∧
    fetchCountryData asciiLower (fun _ : Nat => true) [(str "Chad", 7)] [] =
      some (PropertyValue.stored 7) := by
  refine ⟨?_, rfl, by decide⟩
  intro n hn
  unfold getLocalCountryCoordinates fetchCountryData
  dsimp only
  rw [if_neg hn]
  split_ifs
  · rfl
  · cases h2 : D.find? (fun e => lower e.1 == lower n) with
    | some e =>
      dsimp only
      exact getProp_of_find_key (fun k => lower k == lower n) D e h2
    | none =>
      dsimp only
      cases h3 : D.find? (fun e => includes (lower e.1) (lower n) ||
          includes (lower n) (lower e.1)) with
      | some e =>
        dsimp only
        exact getProp_of_find_key
          (fun k => includes (lower k) (lower n) || includes (lower n) (lower k)) D e h3
      | none => rfl

/-- Witness for C19: "Chadwick" looked up in the mapping with the single key
"Chad" by both functions. -/
theorem getLocalCountryCoordinates_agrees_witness :
    getLocalCountryCoordinates asciiLower (fun _ : Nat => true)
      (some [(str "Chad", 7)]) (str "Chadwick") =
    fetchCountryData asciiLower (fun _ : Nat => true) [(str "Chad", 7)] (str "Chadwick") :=
  (getLocalCountryCoordinates_agrees asciiLower (fun _ : Nat => true) [(str "Chad", 7)]).1
    (str "Chadwick") (by decide)

end Flags
